import Mathlib

/-!
Shallow embedding of the warl0k_dash_app_server_mqtt repository, together with
theorems settling the frozen claims about it.

Conventions of the embedding:
* Python byte strings are `List ℕ` with the bound `b < 256` stated where it matters.
* Python text strings are `String` (or `List Char` where per-character reasoning
  is needed).
* The AES-GCM primitives of the `cryptography` library are external to the
  repository; the receive path is parametrised by abstract `dec` / `enc`
  functions, where `dec … = none` models an `InvalidTag` (authentication
  failure) exception and `dec … = some p` models successful decryption to
  plaintext `p`.
* Exceptions become `Except` / `Option` values; a Python handler that catches
  an exception becomes a `match` on those values.
-/

/-! ## Key persistence (src/app/mqtt/client_key_manager.py)

`save_key` writes `key_bytes.hex()` (lowercase hexadecimal text) into the file
`_session_keys/<session_id>.key`; `load_key` reads that file back through
`bytes.fromhex`, raising `FileNotFoundError` when no file exists for the id.
The directory of key files is modelled as an association list from session id
to stored text; prepending on save gives the file system's last-write-wins
overwrite semantics, since `List.lookup` returns the most recent binding. -/

/-- Lower-case hexadecimal digit for `n < 16`, matching Python's `bytes.hex`
rendering: `0`–`9` then `a`–`f`. -/
def hexDigitChar (n : ℕ) : Char :=
  if n < 10 then Char.ofNat (48 + n) else Char.ofNat (87 + n)

/-- Two-character lowercase hexadecimal rendering of one byte (`bytes.hex`
renders each byte as two zero-padded lowercase hex digits). -/
def byteToHex (b : ℕ) : List Char :=
  [hexDigitChar (b / 16), hexDigitChar (b % 16)]

/-- Rendering of a whole byte string, as produced by Python's
`key_bytes.hex()`. -/
def bytesToHex (bs : List ℕ) : List Char :=
  (bs.map byteToHex).flatten

/-- Value of one hexadecimal digit character, as accepted by `bytes.fromhex`
(both lower and upper case); `none` for a non-hex character. -/
def hexDigitVal (c : Char) : Option ℕ :=
  if ('0' ≤ c ∧ c ≤ '9') then some (c.toNat - 48)
  else if ('a' ≤ c ∧ c ≤ 'f') then some (c.toNat - 87)
  else if ('A' ≤ c ∧ c ≤ 'F') then some (c.toNat - 55)
  else none

/-- Decoding of hexadecimal text to bytes, as done by `bytes.fromhex`: two
digits per byte, failing on odd length or a non-hex character.  (Python also
skips ASCII spaces between byte pairs; the stored key text never contains
spaces, so that case is not modelled.) -/
def bytesFromHex : List Char → Option (List ℕ)
  | [] => some []
  | [_] => none
  | c1 :: c2 :: rest =>
    match hexDigitVal c1, hexDigitVal c2, bytesFromHex rest with
    | some h, some l, some bs => some ((16 * h + l) :: bs)
    | _, _, _ => none

/-- Directory of persisted key files: session id ↦ stored text content. -/
abbrev KeyStore := List (String × List Char)

/-- Failure modes of `load_key`: `FileNotFoundError` when no record exists,
and the `ValueError` that `bytes.fromhex` would raise on corrupt text. -/
inductive KeyError where
  | notFound (session_id : String)
  | badHexText
deriving DecidableEq, Repr

/-- Embedding of `save_key` (client_key_manager.py lines 16–18): writes the
lowercase-hex rendering of the key under the session id, overwriting any
previous record. -/
def save_key (store : KeyStore) (session_id : String) (key_bytes : List ℕ) : KeyStore :=
  (session_id, bytesToHex key_bytes) :: store

/-- Embedding of `load_key` (client_key_manager.py lines 20–25): raises
`FileNotFoundError` when no record exists for the id, otherwise decodes the
stored text with `bytes.fromhex`. -/
def load_key (store : KeyStore) (session_id : String) : Except KeyError (List ℕ) :=
  match List.lookup session_id store with
  | none => .error (.notFound session_id)
  | some txt =>
    match bytesFromHex txt with
    | none => .error .badHexText
    | some bs => .ok bs

/-! ## Server receive path (src/app/mqtt/server_dash.py `on_message`,
identical framing logic in src/app/mqtt/server_dash_log.py)

The handler first gates on `len(payload) < 48` (36-byte session id plus
12-byte nonce); only shorter payloads are dropped at the gate.  Everything
after the gate sits in one `try`/`except` block: field extraction by slicing,
key lookup (`FileNotFoundError` if absent), AES-GCM decryption (`InvalidTag`
on tamper or wrong key), and on success an acknowledgement reply
`"ACK:" + decrypted` encrypted under a fresh nonce and published.  The
distinct exception sources are modelled as distinct constructors (the Python
code distinguishes them in its log line via `type(e).__name__`). -/

/-- Outcome of one invocation of the server's `on_message` callback.  The
handler has no session state and no termination path: every outcome leaves the
loop ready for the next message. -/
inductive ServerEvent where
  | tooShort
  | keyNotFound (session_id : List ℕ)
  | decryptFailed (session_id nonce ciphertext : List ℕ)
  | replied (session_id : List ℕ) (decrypted response : String) (out_payload : List ℕ)
deriving DecidableEq, Repr

/-- Key lookup by raw 36-byte session id, modelling `load_key`'s file lookup
on the server side (server_dash.py lines 13–18). -/
def lookupKey (store : List (List ℕ × List ℕ)) (sid : List ℕ) : Option (List ℕ) :=
  List.lookup sid store

/-- Embedding of the server's `on_message` (server_dash.py lines 26–59).
`dec key nonce ct = none` models an AES-GCM `InvalidTag` exception;
`enc key nonce pt` is the AES-GCM sealing of the reply; `nonce_out` stands for
the `os.urandom(12)` draw used for the reply. -/
def on_message (store : List (List ℕ × List ℕ))
    (dec : List ℕ → List ℕ → List ℕ → Option String)
    (enc : List ℕ → List ℕ → String → List ℕ)
    (nonce_out : List ℕ) (payload : List ℕ) : ServerEvent :=
  if payload.length < 48 then .tooShort
  else
    let session_id := payload.take 36
    let nonce := (payload.drop 36).take 12
    let ciphertext := payload.drop 48
    match lookupKey store session_id with
    | none => .keyNotFound session_id
    | some key =>
      match dec key nonce ciphertext with
      | none => .decryptFailed session_id nonce ciphertext
      | some decrypted =>
        let response := "ACK:" ++ decrypted
        let ct_out := enc key nonce_out response
        .replied session_id decrypted response (session_id ++ nonce_out ++ ct_out)

/-- Embedding of the server's message loop (`client.loop_forever()` invoking
`on_message` once per arriving frame): each element pairs the reply-nonce draw
with the inbound payload, and the loop emits one `ServerEvent` per frame. -/
def serverRun (store : List (List ℕ × List ℕ))
    (dec : List ℕ → List ℕ → List ℕ → Option String)
    (enc : List ℕ → List ℕ → String → List ℕ) :
    List (List ℕ × List ℕ) → List ServerEvent
  | [] => []
  | (nonce_out, payload) :: rest =>
    on_message store dec enc nonce_out payload :: serverRun store dec enc rest

/-! ## Anomaly scorer (src/app/model.py `anomaly_score`, lines 89–110)

`anomaly_score(original_tensor, noisy_tensor, pattern_ratio=0.5)` validates
that the two torch tensors share their shape and are 1-dimensional (raising
`ValueError` otherwise), collects the differing positions, counts those whose
noisy symbol equals `(original[i] + 1) % len(original_tensor)` — note the
modulus is the tensor *length*, not the 62-symbol alphabet size — and returns
`round(|int(total_diff * pattern_ratio) - patterned_count| / total_diff, 3)`,
or `0.0` when no position differs.  Torch tensors are embedded as a shape
together with flat integer data; Python's `%` on integers is floor-mod, which
agrees with `Int.emod` for the positive modulus used here. -/

/-- Truncation of a rational toward zero, the behaviour of Python's `int()`
on a number. -/
def pyInt (q : ℚ) : ℤ :=
  if 0 ≤ q then ⌊q⌋ else ⌈q⌉

/-- Rounding of a rational to the nearest integer with ties to even, the
behaviour of Python's `round` (the embedding works in exact rationals where
Python works in binary floating point). -/
def roundHalfEven (q : ℚ) : ℤ :=
  if q - ⌊q⌋ < 1/2 then ⌊q⌋
  else if 1/2 < q - ⌊q⌋ then ⌊q⌋ + 1
  else if ⌊q⌋ % 2 = 0 then ⌊q⌋ else ⌊q⌋ + 1

/-- Embedding of Python's `round(x, 3)`: rounding to three decimal places. -/
def round3 (q : ℚ) : ℚ :=
  (roundHalfEven (q * 1000) : ℚ) / 1000

/-- Embedding of a torch tensor with integer entries: a shape plus flat data.
All tensors built by the repository are 1-dimensional `long` tensors. -/
structure Tensor where
  shape : List ℕ
  data : List ℤ
deriving DecidableEq, Repr

/-- Embedding of `torch.Tensor.size()`, which returns the full shape. -/
def Tensor.size (t : Tensor) : List ℕ := t.shape

/-- Embedding of `torch.Tensor.dim()`, the number of shape dimensions. -/
def Tensor.dim (t : Tensor) : ℕ := t.shape.length

/-- Embedding of Python's `len(tensor)`, the extent of the first dimension. -/
def Tensor.pyLen (t : Tensor) : ℕ := t.shape.headD 0

/-- Embedding of `anomaly_score` (model.py lines 89–110).  The Python default
`pattern_ratio=0.5` is passed explicitly by the theorems below, since no
caller in the repository overrides it. -/
def anomaly_score (original_tensor noisy_tensor : Tensor) ( pattern_ratio : ℚ) :
    Except String ℚ :=
  if original_tensor.size ≠ noisy_tensor.size then .error "Mismatch in tensor sizes"
  else if original_tensor.dim ≠ 1 ∨ noisy_tensor.dim ≠ 1 then
    .error "Tensors must be 1-dimensional"
  else
    let n := original_tensor.pyLen
    let o := original_tensor.data
    let w := noisy_tensor.data
    let diff_positions := (List.range n).filter (fun i => o.getD i 0 != w.getD i 0)
    let total_diff := diff_positions.length
    let patterned_count :=
      (diff_positions.map
        (fun i => if w.getD i 0 = (o.getD i 0 + 1) % (n : ℤ) then (1 : ℕ) else 0)).sum
    if total_diff = 0 then .ok 0
    else
      let expected_pattern := pyInt ((total_diff : ℚ) * pattern_ratio)
      let deviation :=
        |(expected_pattern : ℚ) - (patterned_count : ℚ)| / (total_diff : ℚ)
      .ok (round3 deviation)

/-! ## Challenge records (src/app/demo_dash3.py; same formulas in
src/app/demo_dash5.py)

One simulated exchange builds a record from the challenge `secret`, its noisy
obfuscation `noisy`, and the oracle output `regen`:
`entropy` of the noisy string, `drift = Hamming(secret, regen)/len(secret)`,
`anomaly = anomaly_score(to_tensor(secret), to_tensor(noisy))`, and
`auth_success = (secret == regen)`. -/

/-- The 62-symbol alphabet of demo_dash3.py line 24 / demo_dash5.py line 20. -/
def vocab : List Char :=
  "ABCDEFGHIJKLMNOPQRSTUVWXYZabcdefghijklmnopqrstuvwxyz0123456789".toList

/-- Embedding of `to_tensor` (demo_dash3.py lines 26–27): the 1-dimensional
tensor of symbol indices of a string.  (Python's `list.index` raises on a
character outside the alphabet; all strings scored by the repository are drawn
from `vocab`, for which `List.indexOf` agrees with it.) -/
def to_tensor (text : List Char) : Tensor :=
  ⟨[text.length], text.map (fun c => (vocab.indexOf c : ℤ))⟩

/-- Embedding of `entropy` (demo_dash3.py lines 29–34):
`-sum(p * log2(p + 1e-12) for p in probs)` over the symbol-frequency
distribution from `Counter(s)`.  `List.dedup` enumerates the same distinct
symbols as `Counter` (possibly in another order, immaterial to the sum). -/
noncomputable def entropy (s : List Char) : ℝ :=
  -((s.dedup.map (fun c =>
      let p : ℝ := (s.count c : ℝ) / (s.length : ℝ)
      p * Real.logb 2 (p + 1e-12))).sum)

/-- Embedding of the drift formula (demo_dash3.py line 70):
`sum(a != b for a, b in zip(secret, regen)) / len(secret)`. -/
def drift (secret regen : List Char) : ℚ :=
  (((secret.zip regen).countP (fun p => p.1 != p.2) : ℚ)) / ((secret.length : ℚ))

/-- One scored challenge record, mirroring the session dictionary assembled in
demo_dash3.py lines 74–83. -/
structure ChallengeRecord where
  secret : List Char
  noisy : List Char
  regen : List Char
  entropyScore : ℝ
  driftScore : ℚ
  anomaly : Except String ℚ
  auth_success : Bool

/-- Assembly of a scored challenge record exactly as demo_dash3.py lines
66–83 computes its fields (`anomaly_score` is called with the tensors of
`secret` and `noisy`, and with the default pattern ratio `0.5`). -/
noncomputable def mkRecord (secret noisy regen : List Char) : ChallengeRecord :=
  ⟨secret, noisy, regen, entropy noisy, drift secret regen,
    anomaly_score (to_tensor secret) (to_tensor noisy) (1/2), secret == regen⟩

/-! ## Claim-following anomaly formula (for refinement comparison only)

The next two definitions are NOT translated from the source; they follow the
words of the specification sentence "positions where `noisy[i]` equals
`(secret[i] + 1) mod alphabet_size`" with `alphabet_size = 62`, so that the
specification's formula can be compared against the code's. -/

/-- Number of differing positions that the specification's sentence counts as
patterned: `noisy[i] = (secret[i] + 1) mod 62`. -/
def specPatternedCount (secret noisy : List ℤ) : ℕ :=
  ((List.range secret.length).filter
    (fun i => (secret.getD i 0 != noisy.getD i 0) &&
      (noisy.getD i 0 == (secret.getD i 0 + 1) % 62))).length

/-- Anomaly score as the specification's words describe it: patterned count
taken modulo the 62-symbol alphabet, expected count at ratio 0.5 of the
differing positions. -/
def specAnomalyScore (secret noisy : List ℤ) : ℚ :=
  let d := ((List.range secret.length).filter
    (fun i => secret.getD i 0 != noisy.getD i 0)).length
  if d = 0 then 0
  else round3 (|((pyInt ((d : ℚ) * (1/2)) : ℚ)) - (specPatternedCount secret noisy : ℚ)| / (d : ℚ))

/-! ## Theorems -/

deriving instance DecidableEq for Except

/-- Decoding a hex digit character produced by `hexDigitChar` recovers the
digit, for every digit value below 16. -/
theorem hexDigitVal_hexDigitChar : ∀ d : ℕ, d < 16 → hexDigitVal (hexDigitChar d) = some d := by
  decide

/-- Characters produced by `hexDigitChar` on digits below 16 are lowercase
hexadecimal digits. -/
theorem hexDigitChar_lowercase :
    ∀ d : ℕ, d < 16 → hexDigitChar d ∈ "0123456789abcdef".toList := by
  decide

/-- Hexadecimal encoding of a byte string round-trips through decoding. -/
theorem bytesFromHex_bytesToHex :
    ∀ bs : List ℕ, (∀ b ∈ bs, b < 256) → bytesFromHex (bytesToHex bs) = some bs := by
  intro bs
  induction bs with
  | nil => intro _; rfl
  | cons b rest ih =>
    intro h
    have hb : b < 256 := h b (List.mem_cons_self b rest)
    have hdiv : b / 16 < 16 := by omega
    have hmod : b % 16 < 16 := by omega
    have h1 := hexDigitVal_hexDigitChar (b / 16) hdiv
    have h2 := hexDigitVal_hexDigitChar (b % 16) hmod
    have hrest := ih (fun x hx => h x (List.mem_cons_of_mem b hx))
    simp only [bytesToHex, List.map_cons, List.flatten_cons, byteToHex, List.cons_append,
      List.nil_append] at hrest ⊢
    simp only [bytesFromHex, h1, h2, hrest]
    have : 16 * (b / 16) + b % 16 = b := by omega
    rw [this]

/-- C9.  For every session id and 16-byte key, loading after saving returns
exactly the saved key (the key round-trips through its lowercase-hexadecimal
persisted text), and loading a session id with no record fails with the
NotFound error. -/
theorem C9_key_roundtrip (store : KeyStore) (session_id : String) (key_bytes : List ℕ)
    (hlen : key_bytes.length = 16) (hbytes : ∀ b ∈ key_bytes, b < 256) :
    load_key (save_key store session_id key_bytes) session_id = .ok key_bytes ∧
    (∀ c ∈ bytesToHex key_bytes, c ∈ "0123456789abcdef".toList) ∧
    (∀ (store2 : KeyStore) (sid : String), List.lookup sid store2 = none →
      load_key store2 sid = .error (.notFound sid)) := by
  refine ⟨?_, ?_, ?_⟩
  · simp [load_key, save_key, List.lookup, bytesFromHex_bytesToHex key_bytes hbytes]
  · intro c hc
    simp only [bytesToHex, List.mem_flatten, List.mem_map] at hc
    obtain ⟨l, ⟨b, hb, rfl⟩, hcl⟩ := hc
    have hb256 := hbytes b hb
    simp only [byteToHex, List.mem_cons, List.not_mem_nil, or_false] at hcl
    rcases hcl with rfl | rfl
    · exact hexDigitChar_lowercase (b / 16) (by omega)
    · exact hexDigitChar_lowercase (b % 16) (by omega)
  · intro store2 sid h
    simp [load_key, h]

/-- Witness for C9 at a concrete 16-byte key and the empty store. -/
theorem C9_key_roundtrip_witness :
    load_key (save_key [] "sid" (List.range 16)) "sid" = .ok (List.range 16) ∧
    (∀ c ∈ bytesToHex (List.range 16), c ∈ "0123456789abcdef".toList) ∧
    (∀ (store2 : KeyStore) (sid : String), List.lookup sid store2 = none →
      load_key store2 sid = .error (.notFound sid)) :=
  C9_key_roundtrip [] "sid" (List.range 16) (by decide) (by decide)

/-- C1 counterexample.  A frame of exactly 63 bytes is NOT rejected at the
length gate: the handler extracts the 36-byte session id (visible in the
outcome) and proceeds to key lookup, so the outcome differs from the
too-short rejection. -/
theorem C1_counterexample :
    on_message [] (fun _ _ _ => none) (fun _ _ _ => []) [] (List.replicate 63 0) =
      ServerEvent.keyNotFound (List.replicate 36 0) ∧
    on_message [] (fun _ _ _ => none) (fun _ _ _ => []) [] (List.replicate 63 0) ≠
      ServerEvent.tooShort := by
  constructor
  · decide
  · decide

/-- C1 amended.  The receive path's length gate rejects a frame as malformed
(without extracting any field) exactly when it is shorter than 48 bytes — the
36-byte session id plus the 12-byte nonce — not 64; frames of length 48 to 63
pass the gate and have their fields extracted. -/
theorem C1_length_gate (store : List (List ℕ × List ℕ))
    (dec : List ℕ → List ℕ → List ℕ → Option String)
    (enc : List ℕ → List ℕ → String → List ℕ)
    (nonce_out payload : List ℕ) :
    on_message store dec enc nonce_out payload = ServerEvent.tooShort ↔
      payload.length < 48 := by
  by_cases h : payload.length < 48
  · simp [on_message, h]
  · simp only [on_message, if_neg h]
    cases hk : lookupKey store (payload.take 36) with
    | none => simp [hk, h]
    | some key =>
      cases hd : dec key ((payload.drop 36).take 12) (payload.drop 48) with
      | none => simp [hk, hd, h]
      | some p => simp [hk, hd, h]

/-- C2.  An inbound frame that authenticates and decrypts to the sentinel
plaintext "KILL_SERVER" is processed exactly like any ordinary message: the
server composes and publishes the reply "ACK:KILL_SERVER" and its handler has
no termination outcome at all — no transition to a terminated state exists in
the receive path. -/
theorem C2_kill_processed_as_ordinary_message (store : List (List ℕ × List ℕ))
    (dec : List ℕ → List ℕ → List ℕ → Option String)
    (enc : List ℕ → List ℕ → String → List ℕ)
    (nonce_out payload key : List ℕ)
    (hlen : 48 ≤ payload.length)
    (hkey : lookupKey store (payload.take 36) = some key)
    (hdec : dec key ((payload.drop 36).take 12) (payload.drop 48) = some "KILL_SERVER") :
    on_message store dec enc nonce_out payload =
      ServerEvent.replied (payload.take 36) "KILL_SERVER" "ACK:KILL_SERVER"
        (payload.take 36 ++ nonce_out ++ enc key nonce_out "ACK:KILL_SERVER") := by
  simp [on_message, Nat.not_lt.mpr hlen, hkey, hdec]

/-- Witness for C2: a concrete 63-byte frame whose ciphertext decrypts to
"KILL_SERVER" under the stored key is answered with "ACK:KILL_SERVER". -/
theorem C2_kill_processed_witness :
    on_message [(List.replicate 36 0, [7])] (fun _ _ _ => some "KILL_SERVER")
      (fun _ _ _ => [9]) [5] (List.replicate 63 0) =
      ServerEvent.replied ((List.replicate 63 (0 : ℕ)).take 36) "KILL_SERVER"
        "ACK:KILL_SERVER" ((List.replicate 63 (0 : ℕ)).take 36 ++ [5] ++ [9]) :=
  C2_kill_processed_as_ordinary_message [(List.replicate 36 0, [7])]
    (fun _ _ _ => some "KILL_SERVER") (fun _ _ _ => [9]) [5] (List.replicate 63 0) [7]
    (by decide) (by decide) rfl

/-- C6.  When AEAD tag verification fails on an inbound frame, the failure is
reported as that frame's own per-message outcome, and the surrounding receive
loop is unaffected: every earlier and later frame is processed exactly as it
would be without the failing frame, and the loop (a total function) does not
crash. -/
theorem C6_auth_failure_is_per_message (store : List (List ℕ × List ℕ))
    (dec : List ℕ → List ℕ → List ℕ → Option String)
    (enc : List ℕ → List ℕ → String → List ℕ)
    (pre post : List (List ℕ × List ℕ)) (nonce_out bad key : List ℕ)
    (hlen : 48 ≤ bad.length)
    (hkey : lookupKey store (bad.take 36) = some key)
    (hdec : dec key ((bad.drop 36).take 12) (bad.drop 48) = none) :
    serverRun store dec enc (pre ++ (nonce_out, bad) :: post) =
      serverRun store dec enc pre ++
        ServerEvent.decryptFailed (bad.take 36) ((bad.drop 36).take 12) (bad.drop 48) ::
        serverRun store dec enc post := by
  induction pre with
  | nil => simp [serverRun, on_message, Nat.not_lt.mpr hlen, hkey, hdec]
  | cons hd tl ih =>
    obtain ⟨a, b⟩ := hd
    simp [serverRun, ih]

/-- Witness for C6: a tampered 63-byte frame in between two runs of the loop
produces exactly one decrypt-failure report. -/
theorem C6_auth_failure_witness :
    serverRun [(List.replicate 36 0, [7])] (fun _ _ _ => none) (fun _ _ _ => [])
      ([] ++ ([5], List.replicate 63 0) :: []) =
      serverRun [(List.replicate 36 0, [7])] (fun _ _ _ => none) (fun _ _ _ => []) [] ++
        ServerEvent.decryptFailed ((List.replicate 63 (0 : ℕ)).take 36)
          (((List.replicate 63 (0 : ℕ)).drop 36).take 12) ((List.replicate 63 (0 : ℕ)).drop 48) ::
        serverRun [(List.replicate 36 0, [7])] (fun _ _ _ => none) (fun _ _ _ => []) [] :=
  C6_auth_failure_is_per_message [(List.replicate 36 0, [7])] (fun _ _ _ => none)
    (fun _ _ _ => []) [] [] [5] (List.replicate 63 0) [7] (by decide) (by decide) rfl

/-- C8.  Whenever an inbound frame decrypts successfully to a plaintext `p`,
the acknowledgement reply carries exactly the plaintext "ACK:" followed by
`p`, and the published payload is the session id, the fresh nonce, and the
sealing of that reply. -/
theorem C8_ack_reply (store : List (List ℕ × List ℕ))
    (dec : List ℕ → List ℕ → List ℕ → Option String)
    (enc : List ℕ → List ℕ → String → List ℕ)
    (nonce_out payload key : List ℕ) (p : String)
    (hlen : 48 ≤ payload.length)
    (hkey : lookupKey store (payload.take 36) = some key)
    (hdec : dec key ((payload.drop 36).take 12) (payload.drop 48) = some p) :
    on_message store dec enc nonce_out payload =
      ServerEvent.replied (payload.take 36) p ("ACK:" ++ p)
        (payload.take 36 ++ nonce_out ++ enc key nonce_out ("ACK:" ++ p)) := by
  simp [on_message, Nat.not_lt.mpr hlen, hkey, hdec]

/-- Witness for C8 at the plaintext "AUTH_REQUEST". -/
theorem C8_ack_reply_witness :
    on_message [(List.replicate 36 0, [7])] (fun _ _ _ => some "AUTH_REQUEST")
      (fun _ _ _ => [9]) [5] (List.replicate 63 0) =
      ServerEvent.replied ((List.replicate 63 (0 : ℕ)).take 36) "AUTH_REQUEST"
        ("ACK:" ++ "AUTH_REQUEST")
        ((List.replicate 63 (0 : ℕ)).take 36 ++ [5] ++ [9]) :=
  C8_ack_reply [(List.replicate 36 0, [7])] (fun _ _ _ => some "AUTH_REQUEST")
    (fun _ _ _ => [9]) [5] (List.replicate 63 0) [7] "AUTH_REQUEST"
    (by decide) (by decide) rfl

/-- Nearest-integer rounding of a nonnegative rational is nonnegative. -/
theorem roundHalfEven_nonneg (q : ℚ) (h : 0 ≤ q) : 0 ≤ roundHalfEven q := by
  have h0 : (0 : ℤ) ≤ ⌊q⌋ := Int.le_floor.mpr (by exact_mod_cast h)
  unfold roundHalfEven
  split
  · exact h0
  · split
    · omega
    · split
      · exact h0
      · omega

/-- Nearest-integer rounding of a rational below an integer bound stays below
that bound. -/
theorem roundHalfEven_le (q : ℚ) (N : ℤ) (h : q ≤ N) : roundHalfEven q ≤ N := by
  have hf : ⌊q⌋ ≤ N := by
    have := Int.floor_le_floor h
    simpa using this
  have hfl : (⌊q⌋ : ℚ) ≤ q := Int.floor_le q
  unfold roundHalfEven
  split
  · exact hf
  · rename_i hr1
    push_neg at hr1
    have hlt : (⌊q⌋ : ℚ) < (N : ℚ) := by linarith
    have hltz : ⌊q⌋ < N := by exact_mod_cast hlt
    split
    · omega
    · split
      · exact hf
      · omega

/-- Rounding to three decimals keeps a rational inside the unit interval. -/
theorem round3_mem_unit (q : ℚ) (h0 : 0 ≤ q) (h1 : q ≤ 1) :
    0 ≤ round3 q ∧ round3 q ≤ 1 := by
  unfold round3
  constructor
  · have := roundHalfEven_nonneg (q * 1000) (by linarith)
    have hz : (0 : ℚ) ≤ (roundHalfEven (q * 1000) : ℚ) := by exact_mod_cast this
    positivity
  · have := roundHalfEven_le (q * 1000) 1000 (by push_cast; linarith)
    rw [div_le_one (by norm_num)]
    exact_mod_cast this

/-- The 0/1 indicator sum over a list is at most the list's length. -/
theorem sum_map_ite_le_length {α : Type} (l : List α) (p : α → Prop) [DecidablePred p] :
    (l.map (fun a => if p a then (1 : ℕ) else 0)).sum ≤ l.length := by
  induction l with
  | nil => simp
  | cons a t ih =>
    simp only [List.map_cons, List.sum_cons, List.length_cons]
    split
    · omega
    · omega

/-- The 0/1 indicator sum over a list counts exactly the elements kept by the
corresponding filter. -/
theorem sum_map_ite_eq_length_filter {α : Type} (l : List α) (p : α → Prop)
    [DecidablePred p] :
    (l.map (fun a => if p a then (1 : ℕ) else 0)).sum =
      (l.filter (fun a => decide (p a))).length := by
  induction l with
  | nil => rfl
  | cons a t ih =>
    by_cases h : p a
    · simp [List.filter_cons, h, ih, Nat.add_comm]
    · simp [List.filter_cons, h, ih]

/-- With equal shapes and 1-dimensional tensors both validation gates pass, and
the score is the zero/deviation conditional computed from the differing
positions. -/
theorem anomaly_score_unfold (t u : Tensor) (r : ℚ)
    (h : t.size = u.size) (h1 : t.dim = 1) (h2 : u.dim = 1) :
    anomaly_score t u r =
      (if ((List.range t.pyLen).filter
            (fun i => t.data.getD i 0 != u.data.getD i 0)).length = 0
       then .ok 0
       else .ok (round3
        (|(pyInt ((((List.range t.pyLen).filter
              (fun i => t.data.getD i 0 != u.data.getD i 0)).length : ℚ) * r) : ℚ) -
          ((((List.range t.pyLen).filter
              (fun i => t.data.getD i 0 != u.data.getD i 0)).map
            (fun i => if u.data.getD i 0 = (t.data.getD i 0 + 1) % (t.pyLen : ℤ)
              then (1 : ℕ) else 0)).sum : ℚ)| /
          (((List.range t.pyLen).filter
            (fun i => t.data.getD i 0 != u.data.getD i 0)).length : ℚ)))) := by
  simp only [anomaly_score]
  rw [if_neg (by simp [h]), if_neg (by simp [h1, h2])]

/-- C10.  `anomaly_score` raises the size-mismatch ValueError whenever the two
tensors differ in shape, raises the dimensionality ValueError whenever shapes
agree but are not 1-dimensional, and returns a value without raising on every
pair of equal-size 1-dimensional tensors. -/
theorem C10_validation (t u : Tensor) (r : ℚ) :
    (t.size ≠ u.size → anomaly_score t u r = .error "Mismatch in tensor sizes") ∧
    (t.size = u.size → (t.dim ≠ 1 ∨ u.dim ≠ 1) →
      anomaly_score t u r = .error "Tensors must be 1-dimensional") ∧
    (t.size = u.size → t.dim = 1 → u.dim = 1 → ∃ q, anomaly_score t u r = .ok q) := by
  refine ⟨?_, ?_, ?_⟩
  · intro h
    unfold anomaly_score
    rw [if_pos h]
  · intro h hdim
    unfold anomaly_score
    rw [if_neg (by simp [h]), if_pos hdim]
  · intro h h1 h2
    rw [anomaly_score_unfold t u r h h1 h2]
    split
    · exact ⟨0, rfl⟩
    · exact ⟨_, rfl⟩

/-- Witness for C10: a shape mismatch, a 2-dimensional pair, and an ordinary
1-dimensional pair. -/
theorem C10_validation_witness :
    anomaly_score ⟨[2], [0, 0]⟩ ⟨[3], [0, 0, 0]⟩ (1/2) =
      .error "Mismatch in tensor sizes" ∧
    anomaly_score ⟨[2, 1], [0, 0]⟩ ⟨[2, 1], [0, 0]⟩ (1/2) =
      .error "Tensors must be 1-dimensional" ∧
    ∃ q, anomaly_score ⟨[2], [0, 0]⟩ ⟨[2], [0, 1]⟩ (1/2) = .ok q :=
  ⟨(C10_validation ⟨[2], [0, 0]⟩ ⟨[3], [0, 0, 0]⟩ (1/2)).1 (by decide),
   (C10_validation ⟨[2, 1], [0, 0]⟩ ⟨[2, 1], [0, 0]⟩ (1/2)).2.1 rfl (Or.inl (by decide)),
   (C10_validation ⟨[2], [0, 0]⟩ ⟨[2], [0, 1]⟩ (1/2)).2.2 rfl rfl rfl⟩

/-- C3 counterexample.  On the equal-length symbol-index sequences
secret = [1, 1] and noisy = [0, 1] (one differing position), the code scores
the differing position as patterned because `(1 + 1) % len = 0` with
`len = 2`, returning 1, whereas the claim's mod-62 characterisation
(`(1 + 1) % 62 = 2 ≠ 0`) yields an anomaly of 0. -/
theorem C3_counterexample :
    anomaly_score ⟨[2], [1, 1]⟩ ⟨[2], [0, 1]⟩ (1/2) = .ok 1 ∧
    specAnomalyScore [1, 1] [0, 1] = 0 ∧ (1 : ℚ) ≠ 0 := by
  refine ⟨?_, ?_, by norm_num⟩
  · rw [anomaly_score_unfold ⟨[2], [1, 1]⟩ ⟨[2], [0, 1]⟩ (1/2) rfl rfl rfl]
    rw [if_neg (by decide)]
    rw [show ((List.range (Tensor.pyLen ⟨[2], [1, 1]⟩)).filter
      (fun i => (Tensor.data ⟨[2], [1, 1]⟩).getD i 0 !=
        (Tensor.data ⟨[2], [0, 1]⟩).getD i 0)) = [0] from by decide]
    norm_num [Tensor.pyLen, List.headD, pyInt, round3, roundHalfEven]
  · rw [show specAnomalyScore [1, 1] [0, 1] =
      round3 (|(pyInt (((1 : ℕ) : ℚ) * (1/2)) : ℚ) -
        ((specPatternedCount [1, 1] [0, 1] : ℕ) : ℚ)| / ((1 : ℕ) : ℚ)) from ?_]
    · rw [show specPatternedCount [1, 1] [0, 1] = 0 from by decide]
      norm_num [pyInt, round3, roundHalfEven]
    · rw [specAnomalyScore]
      rw [show ((List.range ([1, 1] : List ℤ).length).filter
        (fun i => ([1, 1] : List ℤ).getD i 0 != ([0, 1] : List ℤ).getD i 0)) = [0] from by decide]
      norm_num

/-- C3 amended.  For equal-length integer symbol-index sequences with at least
one differing position, a differing position i counts as patterned exactly
when noisy[i] equals (secret[i] + 1) modulo the SEQUENCE LENGTH (not the
62-symbol alphabet size), and the score is
|int(0.5 · total_diff) − patterned_count| / total_diff rounded to three
decimal places. -/
theorem C3_patterned_mod_length (o w : List ℤ) (d pc : ℕ)
    (hlen : o.length = w.length)
    (hd : ((List.range o.length).filter (fun i => o.getD i 0 != w.getD i 0)).length = d)
    (hpc : (((List.range o.length).filter (fun i => o.getD i 0 != w.getD i 0)).filter
        (fun i => w.getD i 0 == (o.getD i 0 + 1) % (o.length : ℤ))).length = pc)
    (hne : d ≠ 0) :
    anomaly_score ⟨[o.length], o⟩ ⟨[w.length], w⟩ (1/2) =
      .ok (round3 (|(pyInt ((d : ℚ) * (1/2)) : ℚ) - (pc : ℚ)| / (d : ℚ))) := by
  rw [anomaly_score_unfold ⟨[o.length], o⟩ ⟨[w.length], w⟩ (1/2)
    (by simp [Tensor.size, hlen]) rfl rfl]
  have hsum : (((List.range o.length).filter (fun i => o.getD i 0 != w.getD i 0)).map
      (fun i => if w.getD i 0 = (o.getD i 0 + 1) % ((o.length : ℕ) : ℤ)
        then (1 : ℕ) else 0)).sum = pc := by
    rw [sum_map_ite_eq_length_filter]
    rw [← hpc]
    apply congrArg
    apply List.filter_congr
    intro i _
    rw [Bool.beq_eq_decide_eq]
  dsimp only [Tensor.pyLen, Tensor.data, List.headD]
  rw [hsum, hd, if_neg hne]

/-- Witness for C3 amended at the sequences [1, 1] and [0, 1]: one differing
position, patterned under the mod-length rule, scored 1 after rounding. -/
theorem C3_patterned_mod_length_witness :
    anomaly_score ⟨[([1, 1] : List ℤ).length], [1, 1]⟩ ⟨[([0, 1] : List ℤ).length], [0, 1]⟩ (1/2) =
      .ok (round3 (|(pyInt (((1 : ℕ) : ℚ) * (1/2)) : ℚ) - ((1 : ℕ) : ℚ)| / ((1 : ℕ) : ℚ))) :=
  C3_patterned_mod_length [1, 1] [0, 1] 1 1 rfl (by decide) (by decide) (by decide)

/-- Bounds for the rounded deviation: with a nonzero count of differing
positions and a patterned count no larger than it, the score built by the
anomaly formula at pattern ratio 0.5 lies in the unit interval. -/
theorem deviation_round3_bounds (d pc : ℕ) (hd : d ≠ 0) (hpc : pc ≤ d) :
    0 ≤ round3 (|(pyInt ((d : ℚ) * (1/2)) : ℚ) - (pc : ℚ)| / (d : ℚ)) ∧
    round3 (|(pyInt ((d : ℚ) * (1/2)) : ℚ) - (pc : ℚ)| / (d : ℚ)) ≤ 1 := by
  have hd1 : 1 ≤ d := Nat.one_le_iff_ne_zero.mpr hd
  have hq0 : (0 : ℚ) < (d : ℚ) := by exact_mod_cast hd1
  have hexp0 : 0 ≤ pyInt ((d : ℚ) * (1/2)) := by
    rw [pyInt, if_pos (by positivity)]
    exact Int.le_floor.mpr (by positivity)
  have hexple : pyInt ((d : ℚ) * (1/2)) ≤ (d : ℤ) := by
    rw [pyInt, if_pos (by positivity)]
    have h1 : ((d : ℚ) * (1/2)) ≤ (((d : ℤ) : ℚ)) := by push_cast; linarith
    calc ⌊(d : ℚ) * (1/2)⌋ ≤ ⌊(((d : ℤ) : ℚ))⌋ := Int.floor_le_floor h1
      _ = (d : ℤ) := Int.floor_intCast _
  have habs : |((pyInt ((d : ℚ) * (1/2)) : ℤ) : ℚ) - (pc : ℚ)| ≤ (d : ℚ) := by
    rw [abs_le]
    have h2 : (0 : ℚ) ≤ ((pyInt ((d : ℚ) * (1/2)) : ℤ) : ℚ) := by exact_mod_cast hexp0
    have h3 : ((pyInt ((d : ℚ) * (1/2)) : ℤ) : ℚ) ≤ (d : ℚ) := by exact_mod_cast hexple
    have h4 : (0 : ℚ) ≤ (pc : ℚ) := by positivity
    have h5 : (pc : ℚ) ≤ (d : ℚ) := by exact_mod_cast hpc
    constructor
    · linarith
    · linarith
  have hdev0 : 0 ≤ |((pyInt ((d : ℚ) * (1/2)) : ℤ) : ℚ) - (pc : ℚ)| / (d : ℚ) := by positivity
  have hdev1 : |((pyInt ((d : ℚ) * (1/2)) : ℤ) : ℚ) - (pc : ℚ)| / (d : ℚ) ≤ 1 := by
    rw [div_le_one hq0]
    exact habs
  exact round3_mem_unit _ hdev0 hdev1

/-- The score of a pair of equal-length 1-dimensional integer sequences is a
successful value in the unit interval, and it is zero when the sequences are
equal. -/
theorem anomaly_score_bounds (o w : List ℤ) (hlen : o.length = w.length) :
    ∃ q, anomaly_score ⟨[o.length], o⟩ ⟨[w.length], w⟩ (1/2) = .ok q ∧
      0 ≤ q ∧ q ≤ 1 ∧ (o = w → q = 0) := by
  rw [anomaly_score_unfold ⟨[o.length], o⟩ ⟨[w.length], w⟩ (1/2)
    (by simp [Tensor.size, hlen]) rfl rfl]
  dsimp only [Tensor.pyLen, Tensor.data, List.headD]
  by_cases hz : ((List.range o.length).filter (fun i => o.getD i 0 != w.getD i 0)).length = 0
  · rw [if_pos hz]
    exact ⟨0, rfl, le_refl 0, zero_le_one, fun _ => rfl⟩
  · rw [if_neg hz]
    have hpcle : (((List.range o.length).filter (fun i => o.getD i 0 != w.getD i 0)).map
        (fun i => if w.getD i 0 = (o.getD i 0 + 1) % ((o.length : ℕ) : ℤ)
          then (1 : ℕ) else 0)).sum ≤
        ((List.range o.length).filter (fun i => o.getD i 0 != w.getD i 0)).length :=
      sum_map_ite_le_length _ _
    obtain ⟨hr0, hr1⟩ := deviation_round3_bounds _ _ hz hpcle
    refine ⟨_, rfl, hr0, hr1, ?_⟩
    intro heq
    exfalso
    apply hz
    subst heq
    simp [bne_self_eq_false]

/-- C4 counterexample.  A scored challenge record whose secret equals its
reconstructed string can still carry a nonzero anomaly: the anomaly is
computed from (secret, noisy), and with noisy differing from the secret in
one mod-length-patterned position the score is 1, not 0. -/
theorem C4_counterexample :
    (mkRecord (List.replicate 16 'A') ('B' :: List.replicate 15 'A')
      (List.replicate 16 'A')).secret =
      (mkRecord (List.replicate 16 'A') ('B' :: List.replicate 15 'A')
        (List.replicate 16 'A')).regen ∧
    (mkRecord (List.replicate 16 'A') ('B' :: List.replicate 15 'A')
      (List.replicate 16 'A')).auth_success = true ∧
    (mkRecord (List.replicate 16 'A') ('B' :: List.replicate 15 'A')
      (List.replicate 16 'A')).anomaly = .ok 1 ∧ (1 : ℚ) ≠ 0 := by
  refine ⟨rfl, by decide, ?_, by norm_num⟩
  show anomaly_score (to_tensor (List.replicate 16 'A'))
    (to_tensor ('B' :: List.replicate 15 'A')) (1/2) = .ok 1
  have h1 : to_tensor (List.replicate 16 'A') = ⟨[16], List.replicate 16 (0 : ℤ)⟩ := by decide
  have h2 : to_tensor ('B' :: List.replicate 15 'A') =
      ⟨[16], 1 :: List.replicate 15 (0 : ℤ)⟩ := by decide
  rw [h1, h2]
  rw [anomaly_score_unfold ⟨[16], List.replicate 16 (0 : ℤ)⟩
    ⟨[16], 1 :: List.replicate 15 (0 : ℤ)⟩ (1/2) rfl rfl rfl]
  rw [if_neg (by decide)]
  rw [show ((List.range (Tensor.pyLen ⟨[16], List.replicate 16 (0 : ℤ)⟩)).filter
    (fun i => (Tensor.data ⟨[16], List.replicate 16 (0 : ℤ)⟩).getD i 0 !=
      (Tensor.data ⟨[16], 1 :: List.replicate 15 (0 : ℤ)⟩).getD i 0)) = [0] from by decide]
  norm_num [Tensor.pyLen, Tensor.data, List.headD, List.getD, pyInt, round3, roundHalfEven]

/-- C4 amended.  For every scored challenge record with equal-length secret
and noisy strings, the anomaly score is a successful value in [0, 1], and it
is exactly 0 whenever the secret equals the NOISY string (zero differing
positions between the two inputs of the anomaly computation) — not whenever
the secret equals the reconstructed string. -/
theorem C4_anomaly_bounds (secret noisy regen : List Char)
    (hlen : secret.length = noisy.length) :
    ∃ q, (mkRecord secret noisy regen).anomaly = .ok q ∧ 0 ≤ q ∧ q ≤ 1 ∧
      (secret = noisy → q = 0) := by
  have hfield : (mkRecord secret noisy regen).anomaly =
      anomaly_score (to_tensor secret) (to_tensor noisy) (1/2) := rfl
  rw [hfield]
  obtain ⟨q, hq, h0, h1, hz⟩ := anomaly_score_bounds
    (secret.map (fun c => (vocab.indexOf c : ℤ)))
    (noisy.map (fun c => (vocab.indexOf c : ℤ))) (by simp [hlen])
  rw [List.length_map, List.length_map] at hq
  refine ⟨q, hq, h0, h1, ?_⟩
  intro heq
  exact hz (by rw [heq])

/-- Witness for C4 amended at a concrete record. -/
theorem C4_anomaly_bounds_witness :
    ∃ q, (mkRecord ['A', 'B'] ['A', 'B'] ['A', 'C']).anomaly = .ok q ∧
      0 ≤ q ∧ q ≤ 1 ∧ (['A', 'B'] = ['A', 'B'] → q = 0) :=
  C4_anomaly_bounds ['A', 'B'] ['A', 'B'] ['A', 'C'] rfl

/-- C7.  A scored challenge record's auth_success flag is true exactly when
the secret equals the reconstructed string character for character; any
length difference or any single differing position makes it false. -/
theorem C7_auth_success_iff (secret noisy regen : List Char) :
    ((mkRecord secret noisy regen).auth_success = true ↔ secret = regen) ∧
    (secret.length ≠ regen.length → (mkRecord secret noisy regen).auth_success = false) ∧
    (∀ i : ℕ, secret[i]? ≠ regen[i]? → (mkRecord secret noisy regen).auth_success = false) := by
  have hfield : (mkRecord secret noisy regen).auth_success = (secret == regen) := rfl
  refine ⟨?_, ?_, ?_⟩
  · rw [hfield]
    exact beq_iff_eq
  · intro h
    rw [hfield]
    rw [beq_eq_false_iff_ne]
    intro heq
    exact h (by rw [heq])
  · intro i h
    rw [hfield]
    rw [beq_eq_false_iff_ne]
    intro heq
    exact h (by rw [heq])

/-- Witness for C7: equality on identical strings, falsity on a single
differing position. -/
theorem C7_auth_success_witness :
    (mkRecord ['A', 'B'] ['A', 'B'] ['A', 'B']).auth_success = true ∧
    (mkRecord ['A', 'B'] ['A', 'B'] ['A', 'C']).auth_success = false :=
  ⟨(C7_auth_success_iff ['A', 'B'] ['A', 'B'] ['A', 'B']).1.mpr rfl,
   (C7_auth_success_iff ['A', 'B'] ['A', 'B'] ['A', 'C']).2.2 1 (by decide)⟩

/-- Pointwise comparison of mapped sums over the same list. -/
theorem list_sum_map_le {α : Type} (l : List α) (f g : α → ℝ)
    (h : ∀ a ∈ l, f a ≤ g a) : (l.map f).sum ≤ (l.map g).sum := by
  induction l with
  | nil => simp
  | cons a t ih =>
    simp only [List.map_cons, List.sum_cons]
    have h1 := h a (List.mem_cons_self a t)
    have h2 := ih (fun x hx => h x (List.mem_cons_of_mem a hx))
    linarith

/-- The symbol-frequency distribution of a nonempty string sums to one. -/
theorem sum_probs_eq_one (s : List Char) (hs : s ≠ []) :
    (s.dedup.map (fun c => ((s.count c : ℝ) / (s.length : ℝ)))).sum = 1 := by
  have hlen : 0 < s.length := List.length_pos.mpr hs
  have hlr : ((s.length : ℝ)) ≠ 0 := by positivity
  have h0 : (s.dedup.map (fun c => ((s.count c : ℝ)))).sum = (s.length : ℝ) := by
    have h00 := List.sum_map_count_dedup_eq_length s
    have h01 : (((s.dedup.map (fun x => s.count x)).sum : ℕ) : ℝ) = ((s.length : ℕ) : ℝ) := by
      exact_mod_cast congrArg (fun k : ℕ => (k : ℝ)) h00
    rw [Nat.cast_list_sum, List.map_map] at h01
    exact h01
  have h1 : (s.dedup.map (fun c => ((s.count c : ℝ) * ((s.length : ℝ))⁻¹))).sum
      = (s.dedup.map (fun c => ((s.count c : ℝ)))).sum * ((s.length : ℝ))⁻¹ :=
    List.sum_map_mul_right s.dedup (fun c => ((s.count c : ℝ))) ((s.length : ℝ))⁻¹
  calc (s.dedup.map (fun c => ((s.count c : ℝ) / (s.length : ℝ)))).sum
      = (s.dedup.map (fun c => ((s.count c : ℝ) * ((s.length : ℝ))⁻¹))).sum := by
        simp only [div_eq_mul_inv]
    _ = (s.dedup.map (fun c => ((s.count c : ℝ)))).sum * ((s.length : ℝ))⁻¹ := h1
    _ = (s.length : ℝ) * ((s.length : ℝ))⁻¹ := by rw [h0]
    _ = 1 := mul_inv_cancel₀ hlr

/-- C5 counterexample.  The entropy of the single-symbol string "aa" is a
strictly negative number (about −1.44·10⁻¹²), because the epsilon is added
INSIDE the logarithm: −1·log2(1 + 1e-12) < 0.  Hence entropy is neither
always ≥ 0 nor equal to 0 on single-symbol-repeated strings. -/
theorem C5_counterexample : entropy ['a', 'a'] < 0 := by
  have hd : (['a', 'a'] : List Char).dedup = ['a'] := by decide
  unfold entropy
  rw [hd]
  simp only [List.map_cons, List.map_nil, List.sum_cons, List.sum_nil, add_zero]
  have hcount : ((['a', 'a'] : List Char).count 'a' : ℝ) = 2 := by
    rw [show (['a', 'a'] : List Char).count 'a' = 2 from by decide]
    norm_num
  have hlenr : (((['a', 'a'] : List Char).length : ℕ) : ℝ) = 2 := by norm_num
  rw [hcount, hlenr]
  have h1 : (2 : ℝ) / 2 = 1 := by norm_num
  rw [h1, one_mul]
  have hpos : 0 < Real.logb 2 (1 + 1e-12) :=
    Real.logb_pos (by norm_num) (by norm_num)
  linarith

/-- C5 amended.  Because the epsilon 1e-12 sits inside the logarithm, the
entropy of a nonempty string is bounded below by −log2(1 + 1e-12) — a number
greater than −2·10⁻¹² but strictly negative — rather than by 0, and the
entropy of a single-symbol-repeated string equals exactly −log2(1 + 1e-12),
not 0. -/
theorem C5_entropy_lower_bound :
    (∀ s : List Char, s ≠ [] → -(Real.logb 2 (1 + 1e-12)) ≤ entropy s) ∧
    (∀ (n : ℕ) (c : Char), n ≠ 0 →
      entropy (List.replicate n c) = -(Real.logb 2 (1 + 1e-12))) := by
  constructor
  · intro s hs
    unfold entropy
    have hlen : 0 < s.length := List.length_pos.mpr hs
    have key : ∀ c ∈ s.dedup,
        (fun c =>
          let p : ℝ := (s.count c : ℝ) / (s.length : ℝ)
          p * Real.logb 2 (p + 1e-12)) c ≤
        (fun c => ((s.count c : ℝ) / (s.length : ℝ)) * Real.logb 2 (1 + 1e-12)) c := by
      intro c _
      show ((s.count c : ℝ) / (s.length : ℝ)) *
          Real.logb 2 ((s.count c : ℝ) / (s.length : ℝ) + 1e-12) ≤
        ((s.count c : ℝ) / (s.length : ℝ)) * Real.logb 2 (1 + 1e-12)
      have hp0 : (0 : ℝ) ≤ (s.count c : ℝ) / (s.length : ℝ) := by positivity
      have hp1 : (s.count c : ℝ) / (s.length : ℝ) ≤ 1 := by
        rw [div_le_one (by exact_mod_cast hlen)]
        exact_mod_cast List.count_le_length c s
      have hlog : Real.logb 2 ((s.count c : ℝ) / (s.length : ℝ) + 1e-12) ≤
          Real.logb 2 (1 + 1e-12) :=
        Real.logb_le_logb_of_le (by norm_num) (by positivity) (by linarith)
      exact mul_le_mul_of_nonneg_left hlog hp0
    have hle := list_sum_map_le s.dedup _ _ key
    have hsum2 : (s.dedup.map
        (fun c => ((s.count c : ℝ) / (s.length : ℝ)) * Real.logb 2 (1 + 1e-12))).sum =
        Real.logb 2 (1 + 1e-12) := by
      rw [List.sum_map_mul_right s.dedup (fun c => ((s.count c : ℝ) / (s.length : ℝ)))
        (Real.logb 2 (1 + 1e-12)), sum_probs_eq_one s hs, one_mul]
    rw [hsum2] at hle
    linarith
  · intro n c hn
    unfold entropy
    rw [List.replicate_dedup hn]
    simp only [List.map_cons, List.map_nil, List.sum_cons, List.sum_nil, add_zero]
    rw [List.count_replicate_self, List.length_replicate]
    have hnr : ((n : ℝ)) ≠ 0 := Nat.cast_ne_zero.mpr hn
    rw [div_self hnr, one_mul]

/-- Witness for C5 amended: the bound at "ab" and the exact value at "aa"
written as a replicate. -/
theorem C5_entropy_lower_bound_witness :
    -(Real.logb 2 (1 + 1e-12)) ≤ entropy ['a', 'b'] ∧
    entropy (List.replicate 2 'a') = -(Real.logb 2 (1 + 1e-12)) :=
  ⟨C5_entropy_lower_bound.1 ['a', 'b'] (by decide),
   C5_entropy_lower_bound.2 2 'a' (by decide)⟩
